import Mathlib

/-!
Verification of the multi-provider dispatch-and-aggregate core of the
llm-meta-endpoint Cloudflare Worker (src/src/index.ts).

The embedding is shallow: JavaScript runtime values are modelled by `JVal`
(with `undefined`, JS truthiness and `typeof`), the source's `Result<T, E>`
tagged union by `Result`, and every pure function of the source is
translated directly.  Effects are made explicit: the network transport
behind `fetch` is an oracle value (`CallEnv`), clock reads are explicit
integer arguments, and the promise list built by `buildLLMPromises` is
defunctionalized into `Invocation` records together with `runInvocation`
(`Promise.all` preserves argument order, so it is modelled as `List.map`).

The platform primitives `JSON.parse` / `JSON.stringify` are not part of the
repository; they are modelled from the spec (§4.4) further below, with
numbers as integers and string escapes handled generically.
-/

namespace LlmMeta

/-- The source's `Result<T, E>` tagged union (index.ts lines 52-54). -/
inductive Result (T : Type) (E : Type) where
  | ok (value : T)
  | err (error : E)
deriving DecidableEq, Repr

/-- JavaScript runtime values, as far as the core manipulates them:
`undefined`, `null`, booleans, numbers (modelled as integers), strings,
arrays and plain objects (field list in insertion order, later entries
overriding earlier ones on lookup, as JS assignment does). -/
inductive JVal where
  | undefined
  | null
  | bool (b : Bool)
  | num (n : Int)
  | str (s : String)
  | arr (xs : List JVal)
  | obj (fields : List (String × JVal))

/-- JS truthiness: `undefined`, `null`, `false`, `0` and `""` are falsy;
every other value (including every object and array) is truthy. -/
def truthy : JVal → Bool
  | .undefined => false
  | .null => false
  | .bool b => b
  | .num n => n != 0
  | .str s => s != ""
  | .arr _ => true
  | .obj _ => true

/-- JS `typeof`: note `typeof null` is `"object"`, and arrays are objects. -/
def JVal.typeof : JVal → String
  | .undefined => "undefined"
  | .null => "object"
  | .bool _ => "boolean"
  | .num _ => "number"
  | .str _ => "string"
  | .arr _ => "object"
  | .obj _ => "object"

/-- Object field lookup, last assignment wins (JS object semantics). -/
def lookupField (fields : List (String × JVal)) (key : String) : JVal :=
  fields.foldl (fun acc kv => if kv.1 = key then kv.2 else acc) .undefined

/-- Property access `v.key` (or `v?.key`): `undefined` on every
non-object; the source only dereferences possibly-null values behind
optional chaining, which short-circuits to `undefined`. -/
def JVal.get : JVal → String → JVal
  | .obj fields, key => lookupField fields key
  | _, _ => .undefined

/-- Index access `v[i]`: array element, single-character string for a
string (JS string indexing), `undefined` otherwise or out of range. -/
def JVal.idx : JVal → Nat → JVal
  | .arr xs, i => (xs.get? i).getD .undefined
  | .str s, i => ((s.data.get? i).map (fun c => JVal.str (String.mk [c]))).getD .undefined
  | _, _ => .undefined

/-- The string a JS value carries when used where a string is expected
(`String(v)` / template coercion): arrays join their elements with commas
(`null`/`undefined` elements become empty), objects print as
`[object Object]`.  Used where the source passes an `any` to
`JSON.parse`. -/
def jsNumString (n : Int) : String := toString n

mutual

def jsToString : JVal → String
  | .undefined => "undefined"
  | .null => "null"
  | .bool true => "true"
  | .bool false => "false"
  | .num n => jsNumString n
  | .str s => s
  | .arr xs => jsToStringElems xs
  | .obj _ => "[object Object]"

def jsToStringElems : List JVal → String
  | [] => ""
  | x :: xs =>
    (match x with
      | .null => ""
      | .undefined => ""
      | v => jsToString v)
    ++ (if xs.isEmpty then "" else ",") ++ jsToStringElems xs

end

/-! ## Platform JSON primitives

`JSON.parse` and `JSON.stringify` are platform primitives of the JS
runtime, not code of this repository; `safeJsonParse` (index.ts lines
132-141) wraps the former.  They are modelled here from the spec (§4.4 and
the round-trip property of §8): a total, fuel-bounded recursive-descent
parser and a structural printer over `JVal`.  Numbers are modelled as
integers and a backslash escapes the following character generically. -/

/-- JSON insignificant whitespace. -/
def isWsChar (c : Char) : Bool :=
  (c == '\r' || c == '\n') || (c == '\t' || c == ' ')

/-- Drop leading JSON whitespace. -/
def skipWs : List Char → List Char
  | [] => []
  | c :: cs => if isWsChar c then skipWs cs else c :: cs

/-- The decimal digit character for `n < 10`. -/
def digitChar (n : Nat) : Char := Char.ofNat (48 + n)

/-- Decimal digits of a natural number, most significant first. -/
def natDigits (n : Nat) : List Char :=
  if _h : n < 10 then [digitChar n] else natDigits (n / 10) ++ [digitChar (n % 10)]
termination_by n
decreasing_by exact Nat.div_lt_self (by omega) (by omega)

/-- Numeric value of a run of decimal digit characters. -/
def digitsToNat (ds : List Char) : Nat :=
  ds.foldl (fun acc c => 10 * acc + (c.toNat - 48)) 0

/-- Modelled from the spec: decimal rendering of an integer, as
`JSON.stringify` renders integral numbers. -/
def printInt (n : Int) : List Char :=
  if n < 0 then '-' :: natDigits n.natAbs else natDigits n.natAbs

/-- Modelled from the spec: string-body escaping for `JSON.stringify`
(quote and backslash are escaped with a backslash). -/
def escapeChars : List Char → List Char
  | [] => []
  | c :: cs =>
    if c = '"' ∨ c = '\\' then '\\' :: c :: escapeChars cs else c :: escapeChars cs

/-- Parse a string body up to the closing quote; a backslash makes the
following character literal. Returns the body and the remaining input. -/
def parseStrChars : List Char → Except String (List Char × List Char)
  | [] => .error "Unterminated string in JSON"
  | c :: cs =>
    if c = '"' then .ok ([], cs)
    else if c = '\\' then
      match cs with
      | [] => .error "Unterminated string in JSON"
      | d :: cs2 =>
        match parseStrChars cs2 with
        | .ok (s, r) => .ok (d :: s, r)
        | .error e => .error e
    else
      match parseStrChars cs with
      | .ok (s, r) => .ok (c :: s, r)
      | .error e => .error e

/-- Split off the leading run of decimal digit characters. -/
def parseDigits : List Char → (List Char × List Char)
  | [] => ([], [])
  | c :: cs =>
    if c.isDigit then
      let (ds, r) := parseDigits cs
      (c :: ds, r)
    else ([], c :: cs)

/-- Require the given literal characters at the head of the input. -/
def expectChars (lit : List Char) (input : List Char) (v : JVal) :
    Except String (JVal × List Char) :=
  match lit, input with
  | [], rest => .ok (v, rest)
  | e :: es, c :: cs =>
    if c = e then expectChars es cs v else .error "Unexpected token in JSON"
  | _ :: _, [] => .error "Unexpected end of JSON input"

mutual

/-- Modelled from the spec: recursive-descent JSON value parser (the
platform `JSON.parse`), fuel-bounded for totality. Returns the parsed
value and the unconsumed suffix. -/
def parseVal : Nat → List Char → Except String (JVal × List Char)
  | 0, _ => .error "Too much recursion in JSON"
  | fuel + 1, cs =>
    match skipWs cs with
    | [] => .error "Unexpected end of JSON input"
    | c :: r =>
      if c.isDigit then
        match parseDigits (c :: r) with
        | (ds, rest) => .ok (.num (digitsToNat ds : Int), rest)
      else if c = '-' then
        match parseDigits r with
        | ([], _) => .error "Unexpected token in JSON"
        | (ds, rest) => .ok (.num (-(digitsToNat ds : Int)), rest)
      else if c = '"' then
        match parseStrChars r with
        | .ok (s, rest) => .ok (.str (String.mk s), rest)
        | .error e => .error e
      else if c = '[' then
        match skipWs r with
        | [] => .error "Unexpected end of JSON input"
        | d :: r2 =>
          if d = ']' then .ok (.arr [], r2)
          else
            match parseElems fuel (d :: r2) with
            | .ok (xs, rest) => .ok (.arr xs, rest)
            | .error e => .error e
      else if c = '{' then
        match skipWs r with
        | [] => .error "Unexpected end of JSON input"
        | d :: r2 =>
          if d = '}' then .ok (.obj [], r2)
          else
            match parseMembers fuel (d :: r2) with
            | .ok (fs, rest) => .ok (.obj fs, rest)
            | .error e => .error e
      else if c = 'n' then expectChars ['u', 'l', 'l'] r .null
      else if c = 't' then expectChars ['r', 'u', 'e'] r (.bool true)
      else if c = 'f' then expectChars ['a', 'l', 's', 'e'] r (.bool false)
      else .error "Unexpected token in JSON"

/-- One or more comma-separated array elements, up to the closing
bracket. -/
def parseElems : Nat → List Char → Except String (List JVal × List Char)
  | 0, _ => .error "Too much recursion in JSON"
  | fuel + 1, cs =>
    match parseVal fuel cs with
    | .error e => .error e
    | .ok (v, rest) =>
      match skipWs rest with
      | [] => .error "Unexpected end of JSON input"
      | d :: r2 =>
        if d = ',' then
          match parseElems fuel r2 with
          | .ok (vs, rest2) => .ok (v :: vs, rest2)
          | .error e => .error e
        else if d = ']' then .ok ([v], r2)
        else .error "Unexpected token in JSON"

/-- One or more comma-separated object members, up to the closing
brace. -/
def parseMembers : Nat → List Char → Except String (List (String × JVal) × List Char)
  | 0, _ => .error "Too much recursion in JSON"
  | fuel + 1, cs =>
    match skipWs cs with
    | [] => .error "Unexpected end of JSON input"
    | c :: r =>
      if c = '"' then
        match parseStrChars r with
        | .error e => .error e
        | .ok (k, rest) =>
          match skipWs rest with
          | [] => .error "Unexpected end of JSON input"
          | d :: r2 =>
            if d = ':' then
              match parseVal fuel r2 with
              | .error e => .error e
              | .ok (v, rest2) =>
                match skipWs rest2 with
                | [] => .error "Unexpected end of JSON input"
                | e2 :: r3 =>
                  if e2 = ',' then
                    match parseMembers fuel r3 with
                    | .ok (fs, rest3) => .ok ((String.mk k, v) :: fs, rest3)
                    | .error e => .error e
                  else if e2 = '}' then .ok ([(String.mk k, v)], r3)
                  else .error "Unexpected token in JSON"
            else .error "Unexpected token in JSON"
      else .error "Unexpected token in JSON"

end

mutual

/-- Modelled from the spec: the platform `JSON.stringify` on JS values
(compact form, no added whitespace). -/
def printJ : JVal → List Char
  | .undefined => []
  | .null => 'n' :: ['u', 'l', 'l']
  | .bool false => 'f' :: ['a', 'l', 's', 'e']
  | .bool true => 't' :: ['r', 'u', 'e']
  | .num n => printInt n
  | .str s => '"' :: (escapeChars s.data ++ ['"'])
  | .arr xs => '[' :: (printElems xs ++ [']'])
  | .obj fs => '{' :: (printMembers fs ++ ['}'])

/-- Comma-separated rendering of array elements. -/
def printElems : List JVal → List Char
  | [] => []
  | [x] => printJ x
  | x :: xs => printJ x ++ ',' :: printElems xs

/-- Comma-separated rendering of object members. -/
def printMembers : List (String × JVal) → List Char
  | [] => []
  | [(k, v)] => '"' :: (escapeChars k.data ++ '"' :: ':' :: printJ v)
  | (k, v) :: fs => ('"' :: (escapeChars k.data ++ '"' :: ':' :: printJ v)) ++ ',' :: printMembers fs

end

/-- Modelled from the spec: the platform `JSON.parse` — parse one value,
then require only trailing whitespace. -/
def jsonParse (text : String) : Except String JVal :=
  match parseVal (text.data.length + 1) text.data with
  | .error e => .error e
  | .ok (v, rest) =>
    match skipWs rest with
    | [] => .ok v
    | _ => .error "Unexpected non-whitespace character after JSON"

/-- Modelled from the spec: the platform `JSON.stringify`. -/
def stringify (v : JVal) : String := String.mk (printJ v)

/-- `safeJsonParse` (index.ts lines 132-141): wraps the platform parser,
turning a thrown parse error into a tagged failure carrying the thrown
error's message. -/
def safeJsonParse (text : String) : Result JVal String :=
  match jsonParse text with
  | .ok v => .ok v
  | .error msg => .err ("JSON parse error: " ++ msg)

mutual

/-- A JS value that `JSON.stringify` represents exactly: no `undefined`
anywhere (stringify drops or rewrites `undefined`). -/
def noUndef : JVal → Bool
  | .undefined => false
  | .null => true
  | .bool _ => true
  | .num _ => true
  | .str _ => true
  | .arr xs => noUndefElems xs
  | .obj fs => noUndefMembers fs

/-- `noUndef` on every array element. -/
def noUndefElems : List JVal → Bool
  | [] => true
  | x :: xs => noUndef x && noUndefElems xs

/-- `noUndef` on every object member value. -/
def noUndefMembers : List (String × JVal) → Bool
  | [] => true
  | (_, v) :: fs => noUndef v && noUndefMembers fs

end

/-! ## Constants (index.ts lines 56-97) -/

/-- `DEFAULT_SCHEMA` (index.ts lines 60-74), as the JS object literal. -/
def DEFAULT_SCHEMA : JVal :=
  .obj [
    ("type", .str "object"),
    ("properties", .obj [
      ("answer", .obj [
        ("type", .str "string"),
        ("description", .str "The answer to the query")]),
      ("confidence", .obj [
        ("type", .str "number"),
        ("description", .str "Confidence level from 0 to 1")])]),
    ("required", .arr [.str "answer", .str "confidence"]),
    ("additionalProperties", .bool false)]

/-- The four known providers, in registration order (`LLM_CONFIGS` keys,
index.ts lines 76-97, which is also the order `buildLLMPromises` pushes
them). -/
inductive Provider where
  | openai
  | anthropic
  | gemini
  | grok
deriving DecidableEq, Repr

/-- Registration order of the providers. -/
def registrationOrder : List Provider := [.openai, .anthropic, .gemini, .grok]

/-- `LLM_CONFIGS[p].name`, the display identity used in outcomes. -/
def providerDisplayName : Provider → String
  | .openai => "OpenAI GPT-4"
  | .anthropic => "Anthropic Claude"
  | .gemini => "Google Gemini"
  | .grok => "xAI Grok"

/-- The JSON field name of a provider in the `apiKeys` map and in `Env`. -/
def providerField : Provider → String
  | .openai => "openai"
  | .anthropic => "anthropic"
  | .gemini => "gemini"
  | .grok => "grok"

/-! ## Response parsers (index.ts lines 229-279)

The `try` blocks of these parsers are unreachable in the model: every
property access in them is behind optional chaining, which
short-circuits on `null`/`undefined` instead of throwing.  The one
exception is `parseClaudeResponse`, whose `.find` call throws a
`TypeError` when `data.content` is neither an array nor nullish; that
branch is the `catch` result below. -/

/-- `parseOpenAIResponse` (index.ts lines 233-243). -/
def parseOpenAIResponse (data : JVal) : Result JVal String :=
  let content := (((data.get "choices").idx 0).get "message").get "content"
  if truthy content = false then .err "No content in OpenAI response"
  else safeJsonParse (jsToString content)

/-- `parseClaudeResponse` (index.ts lines 245-255). -/
def parseClaudeResponse (data : JVal) : Result JVal String :=
  match data.get "content" with
  | .arr blocks =>
    let toolUse := (blocks.find? (fun block =>
      match block.get "type" with
      | .str s => s == "tool_use"
      | _ => false)).getD .undefined
    if truthy (toolUse.get "input") = false then .err "No tool_use in Claude response"
    else .ok (toolUse.get "input")
  | .undefined => .err "No tool_use in Claude response"
  | .null => .err "No tool_use in Claude response"
  | _ => .err "Claude parse error: TypeError: data?.content?.find is not a function"

/-- `parseGeminiResponse` (index.ts lines 257-267). -/
def parseGeminiResponse (data : JVal) : Result JVal String :=
  let content := (((((data.get "candidates").idx 0).get "content").get "parts").idx 0).get "text"
  if truthy content = false then .err "No content in Gemini response"
  else safeJsonParse (jsToString content)

/-- `parseGrokResponse` (index.ts lines 269-279). -/
def parseGrokResponse (data : JVal) : Result JVal String :=
  let content := (((data.get "choices").idx 0).get "message").get "content"
  if truthy content = false then .err "No content in Grok response"
  else safeJsonParse (jsToString content)

/-- The response parser wired to each provider (index.ts lines 364-407). -/
def providerParser : Provider → (JVal → Result JVal String)
  | .openai => parseOpenAIResponse
  | .anthropic => parseClaudeResponse
  | .gemini => parseGeminiResponse
  | .grok => parseGrokResponse

/-! ## Provider invoker (index.ts lines 285-362) -/

/-- What the external call (`fetch` + `response.text()`) comes back with:
either a thrown error (connection failure, timeout, ...) carrying the
message `createLLMQueryFunction` extracts from it, or an HTTP response
with its status, status text, and full body text. -/
inductive TransportResult where
  | exn (msg : String)
  | http (status : Nat) (statusText : String) (body : String)

/-- The observable environment of one external call: the `Date.now()`
reading at entry, the `Date.now()` reading where the latency is computed
(line 306 on the response path, line 352 on the thrown path), and the
transport's result. -/
structure CallEnv where
  startTime : Int
  endTime : Int
  transport : TransportResult

/-- `LLMResponse` (index.ts lines 29-35): `data` and `error` are the
optional fields of the interface. -/
structure LLMResponse where
  provider : String
  success : Bool
  data : Option JVal
  error : Option String
  latency : Int

/-- `createLLMQueryFunction` (index.ts lines 285-362).  `url`,
`buildHeaders`, `buildBody` and `urlModifier` only shape the outward
`fetch`, which the embedding represents by the `CallEnv` oracle; `query`,
`schema` and `apiKey` are the arguments of the returned async function.
`response.ok` is `fetch`'s `200 <= status < 300`. -/
def createLLMQueryFunction (provider : String)
    (parseResponse : JVal → Result JVal String)
    (_query : String) (_schema : JVal) (_apiKey : JVal)
    (call : CallEnv) : LLMResponse :=
  match call.transport with
  | .exn msg =>
    { provider := provider, success := false, data := none,
      error := some msg, latency := call.endTime - call.startTime }
  | .http status statusText responseText =>
    let latency := call.endTime - call.startTime
    if ¬(200 ≤ status ∧ status < 300) then
      { provider := provider, success := false, data := none,
        error := some (provider ++ " API error: " ++ toString status ++ " " ++ statusText),
        latency := latency }
    else
      match safeJsonParse responseText with
      | .err e =>
        { provider := provider, success := false, data := none,
          error := some e, latency := latency }
      | .ok json =>
        match parseResponse json with
        | .err e =>
          { provider := provider, success := false, data := none,
            error := some e, latency := latency }
        | .ok value =>
          { provider := provider, success := true, data := some value,
            error := none, latency := latency }

/-! ## Key resolution and validation (index.ts lines 413-434) -/

/-- `Env` (index.ts lines 11-16): the process-level default credentials;
`none` models an unset binding. -/
structure Env where
  OPENAI_API_KEY : Option String
  ANTHROPIC_API_KEY : Option String
  GEMINI_API_KEY : Option String
  GROK_API_KEY : Option String

/-- The `Env` binding for a provider, as a JS value (`undefined` when
unset). -/
def envKey (env : Env) : Provider → JVal
  | .openai => match env.OPENAI_API_KEY with | some s => .str s | none => .undefined
  | .anthropic => match env.ANTHROPIC_API_KEY with | some s => .str s | none => .undefined
  | .gemini => match env.GEMINI_API_KEY with | some s => .str s | none => .undefined
  | .grok => match env.GROK_API_KEY with | some s => .str s | none => .undefined

/-- JS `a || b`. -/
def jsOr (a b : JVal) : JVal := if truthy a then a else b

/-- `requestData.apiKeys?.openai` etc.: `JVal.get` already yields
`undefined` on nullish or non-object values, matching the optional
chain. -/
def callerKey (requestData : JVal) (p : Provider) : JVal :=
  (requestData.get "apiKeys").get (providerField p)

/-- The record produced by `resolveApiKeys`. -/
structure ResolvedKeys where
  openai : JVal
  anthropic : JVal
  gemini : JVal
  grok : JVal

/-- Field access on `ResolvedKeys` by provider. -/
def ResolvedKeys.get (ks : ResolvedKeys) : Provider → JVal
  | .openai => ks.openai
  | .anthropic => ks.anthropic
  | .gemini => ks.gemini
  | .grok => ks.grok

/-- `resolveApiKeys` (index.ts lines 429-434). -/
def resolveApiKeys (requestData : JVal) (env : Env) : ResolvedKeys :=
  { openai := jsOr (callerKey requestData .openai) (envKey env .openai),
    anthropic := jsOr (callerKey requestData .anthropic) (envKey env .anthropic),
    gemini := jsOr (callerKey requestData .gemini) (envKey env .gemini),
    grok := jsOr (callerKey requestData .grok) (envKey env .grok) }

/-- The string value of a JS value known to be a string (used only after
the `typeof === 'string'` check). -/
def JVal.asString : JVal → String
  | .str s => s
  | _ => ""

/-- JS `String.prototype.trim`: strip leading and trailing whitespace.
Modelled over the character list so that it evaluates definitionally. -/
def jsTrim (s : String) : String :=
  String.mk (((s.data.dropWhile Char.isWhitespace).reverse.dropWhile Char.isWhitespace).reverse)

/-- `validateRequest` (index.ts lines 413-427). -/
def validateRequest (requestData : JVal) : Result JVal String :=
  if truthy requestData = false ∨ requestData.typeof ≠ "object" then
    .err "Invalid request body"
  else if truthy (requestData.get "query") = false ∨ (requestData.get "query").typeof ≠ "string" then
    .err "Missing required field: query"
  else if (jsTrim (requestData.get "query").asString).length = 0 then
    .err "Query cannot be empty"
  else
    .ok requestData

/-! ## Dispatcher and aggregator (index.ts lines 436-525) -/

/-- One pushed promise of `buildLLMPromises`, defunctionalized: the
provider it will call plus the arguments the query function was applied
to. -/
structure Invocation where
  provider : Provider
  query : String
  schema : JVal
  apiKey : JVal

/-- `buildLLMPromises` (index.ts lines 436-449): one entry per provider
whose resolved key is truthy, pushed in registration order. -/
def buildLLMPromises (query : String) (schema : JVal) (apiKeys : ResolvedKeys) :
    List Invocation :=
  (if truthy apiKeys.openai then [⟨.openai, query, schema, apiKeys.openai⟩] else []) ++
  (if truthy apiKeys.anthropic then [⟨.anthropic, query, schema, apiKeys.anthropic⟩] else []) ++
  (if truthy apiKeys.gemini then [⟨.gemini, query, schema, apiKeys.gemini⟩] else []) ++
  (if truthy apiKeys.grok then [⟨.grok, query, schema, apiKeys.grok⟩] else [])

/-- Running one pushed promise: the wired query function of the
invocation's provider (index.ts lines 364-407, 443-446) under that
provider's call environment. -/
def runInvocation (oracle : Provider → CallEnv) (inv : Invocation) : LLMResponse :=
  createLLMQueryFunction (providerDisplayName inv.provider) (providerParser inv.provider)
    inv.query inv.schema inv.apiKey (oracle inv.provider)

/-- `CombinedResponse` (index.ts lines 37-43). -/
structure CombinedResponse where
  query : String
  responses : List LLMResponse
  totalLatency : Int
  timestamp : String
  providersQueried : Nat

/-- `createCombinedResponse` (index.ts lines 451-461);
`getCurrentTimestamp()` is a clock effect, passed as the explicit `now`
argument. -/
def createCombinedResponse (query : String) (responses : List LLMResponse)
    (totalLatency : Int) (now : String) : CombinedResponse :=
  { query := query, responses := responses, totalLatency := totalLatency,
    timestamp := now, providersQueried := responses.length }

/-- The dispatch section of `handleRequest` (index.ts lines 500-519):
build the promise list; with zero promises report the distinguished
no-providers error (status 400); otherwise `Promise.all`, which resolves
with the results in argument order, modelled as `List.map`. -/
def dispatchProviders (query : String) (schema : JVal) (apiKeys : ResolvedKeys)
    (oracle : Provider → CallEnv) : Result (List LLMResponse) String :=
  let promises := buildLLMPromises query schema apiKeys
  if promises.length = 0 then
    .err "No API keys provided. Include apiKeys in request body or configure environment variables."
  else
    .ok (promises.map (runInvocation oracle))

/-- The promise list `handleRequest` builds for a validated request
(index.ts lines 495-500): schema defaulting via `||`, key resolution,
then `buildLLMPromises`. -/
def plannedInvocations (queryRequest : JVal) (env : Env) : List Invocation :=
  buildLLMPromises (queryRequest.get "query").asString
    (jsOr (queryRequest.get "schema") DEFAULT_SCHEMA)
    (resolveApiKeys queryRequest env)

/-- A rendered handler result: an error response with its HTTP status, or
the combined success payload (index.ts `createErrorResponse` /
`createSuccessResponse`). -/
inductive HandlerResult where
  | errorResponse (status : Nat) (message : String)
  | success (result : CombinedResponse)

/-- `handleRequest` (index.ts lines 467-525) from the point the body has
been JSON-decoded (method gating and body decoding are the boundary entry
point, §6).  Clock reads (`overallStartTime` line 468, line 521 and
`getCurrentTimestamp` line 459) are explicit arguments; the transport is
the oracle. -/
def handleRequestCore (requestData : JVal) (env : Env)
    (oracle : Provider → CallEnv) (overallStartTime overallEndTime : Int)
    (now : String) : HandlerResult :=
  match validateRequest requestData with
  | .err e => .errorResponse 400 e
  | .ok queryRequest =>
    let query := (queryRequest.get "query").asString
    let schema := jsOr (queryRequest.get "schema") DEFAULT_SCHEMA
    let apiKeys := resolveApiKeys queryRequest env
    match dispatchProviders query schema apiKeys oracle with
    | .err e => .errorResponse 400 e
    | .ok responses =>
      .success (createCombinedResponse query responses
        (overallEndTime - overallStartTime) now)

/-! ## Size measures for the parser's fuel bound -/

mutual

/-- A structural measure dominating the parser fuel a printed value
needs. -/
def sizeJ : JVal → Nat
  | .arr xs => sizeElems xs + 1
  | .obj fs => sizeMembers fs + 1
  | _ => 1

/-- Measure of an element list. -/
def sizeElems : List JVal → Nat
  | [] => 1
  | x :: xs => sizeJ x + sizeElems xs

/-- Measure of a member list. -/
def sizeMembers : List (String × JVal) → Nat
  | [] => 1
  | (_, v) :: fs => sizeJ v + sizeMembers fs

end

/-- The suffix after a printed value never starts with a digit, so a
printed number is never extended by the context. -/
def delimOk : List Char → Prop
  | [] => True
  | c :: _ => c.isDigit = false

/-! ## Helper lemmas -/

/-- Digit characters are digits. -/
theorem digitChar_isDigit (n : Nat) (h : n < 10) : (digitChar n).isDigit = true := by
  interval_cases n <;> decide

/-- Numeric value of a digit character. -/
theorem digitChar_toNat (n : Nat) (h : n < 10) : (digitChar n).toNat = 48 + n := by
  interval_cases n <;> decide

/-- `natDigits` never produces the empty list. -/
theorem natDigits_ne_nil (n : Nat) : natDigits n ≠ [] := by
  rw [natDigits]
  split <;> simp

/-- Every character `natDigits` produces is a digit. -/
theorem natDigits_all_digits (n : Nat) : ∀ c ∈ natDigits n, c.isDigit = true := by
  induction n using natDigits.induct with
  | case1 n h =>
    rw [natDigits, dif_pos h]
    intro c hc
    rw [List.mem_singleton] at hc
    subst hc
    exact digitChar_isDigit n h
  | case2 n h ih =>
    rw [natDigits, dif_neg h]
    intro c hc
    rw [List.mem_append, List.mem_singleton] at hc
    rcases hc with hc | hc
    · exact ih c hc
    · subst hc
      exact digitChar_isDigit _ (Nat.mod_lt _ (by omega))

/-- Folding the digit-accumulation step over `natDigits n` recovers `n`
on top of the shifted accumulator. -/
theorem foldl_natDigits (n : Nat) : ∀ acc : Nat,
    (natDigits n).foldl (fun acc c => 10 * acc + (c.toNat - 48)) acc
      = acc * 10 ^ (natDigits n).length + n := by
  induction n using natDigits.induct with
  | case1 n h =>
    intro acc
    rw [natDigits, dif_pos h]
    simp [List.foldl, digitChar_toNat n h]
    ring
  | case2 n h ih =>
    intro acc
    rw [natDigits, dif_neg h, List.foldl_append, ih, List.length_append]
    simp only [List.foldl, List.length_singleton]
    rw [digitChar_toNat _ (Nat.mod_lt _ (by omega))]
    have hdm := Nat.div_add_mod n 10
    rw [pow_succ]
    generalize (10 : Nat) ^ (natDigits (n / 10)).length = A
    have : 48 + n % 10 - 48 = n % 10 := by omega
    rw [this]
    ring_nf
    omega

/-- `digitsToNat` inverts `natDigits`. -/
theorem digitsToNat_natDigits (n : Nat) : digitsToNat (natDigits n) = n := by
  rw [digitsToNat, foldl_natDigits]
  simp

/-- `parseDigits` consumes exactly a leading run of digits when the
suffix does not start with a digit. -/
theorem parseDigits_append (ds rest : List Char)
    (hds : ∀ c ∈ ds, c.isDigit = true) (hrest : delimOk rest) :
    parseDigits (ds ++ rest) = (ds, rest) := by
  induction ds with
  | nil =>
    cases rest with
    | nil => rfl
    | cons c cs =>
      have hc : c.isDigit = false := hrest
      simp [parseDigits, hc]
  | cons c cs ih =>
    have hc : c.isDigit = true := hds c (by simp)
    have ih2 := ih (fun d hd => hds d (by simp [hd]))
    rw [List.cons_append, parseDigits, if_pos hc, ih2]

/-- `skipWs` leaves input starting with a non-whitespace character
alone. -/
theorem skipWs_not_ws (c : Char) (cs : List Char) (h : isWsChar c = false) :
    skipWs (c :: cs) = c :: cs := by
  simp [skipWs, h]

/-- A digit character is not whitespace and is none of the JSON
punctuation characters the parser dispatches on. -/
theorem isDigit_facts (c : Char) (h : c.isDigit = true) :
    isWsChar c = false ∧ c ≠ ']' ∧ c ≠ '}' ∧ c ≠ ',' := by
  have hne : ∀ d : Char, d.isDigit = false → c ≠ d := by
    intro d hd he
    subst he
    rw [h] at hd
    cases hd
  have h1 : (c == ' ') = false := by
    cases hce : c == ' '
    · rfl
    · exact absurd h (by rw [eq_of_beq hce]; decide)
  have h2 : (c == '\t') = false := by
    cases hce : c == '\t'
    · rfl
    · exact absurd h (by rw [eq_of_beq hce]; decide)
  have h3 : (c == '\n') = false := by
    cases hce : c == '\n'
    · rfl
    · exact absurd h (by rw [eq_of_beq hce]; decide)
  have h4 : (c == '\r') = false := by
    cases hce : c == '\r'
    · rfl
    · exact absurd h (by rw [eq_of_beq hce]; decide)
  exact ⟨by simp [isWsChar, h1, h2, h3, h4],
    hne ']' (by decide), hne '}' (by decide), hne ',' (by decide)⟩

/-- Parsing a string body inverts escaping: the body ends exactly at the
unescaped closing quote. -/
theorem parseStrChars_escape (l rest : List Char) :
    parseStrChars (escapeChars l ++ '"' :: rest) = .ok (l, rest) := by
  induction l with
  | nil =>
    simp only [escapeChars, List.nil_append]
    rw [parseStrChars.eq_def]
    dsimp only
    rw [if_pos rfl]
  | cons c cs ih =>
    by_cases hc : c = '"' ∨ c = '\\'
    · rw [escapeChars, if_pos hc]
      show parseStrChars ('\\' :: c :: (escapeChars cs ++ '"' :: rest)) = _
      rw [parseStrChars.eq_def]
      dsimp only
      rw [if_neg (by decide), if_pos rfl, ih]
    · rw [escapeChars, if_neg hc]
      push_neg at hc
      show parseStrChars (c :: (escapeChars cs ++ '"' :: rest)) = _
      rw [parseStrChars.eq_def]
      dsimp only
      rw [if_neg hc.1, if_neg hc.2, ih]

/-- On every branch the invoker records `endTime - startTime` as latency. -/
theorem createLLMQueryFunction_latency (provider : String)
    (parseResponse : JVal → Result JVal String)
    (query : String) (schema apiKey : JVal) (call : CallEnv) :
    (createLLMQueryFunction provider parseResponse query schema apiKey call).latency
      = call.endTime - call.startTime := by
  rcases call with ⟨st, en, tr⟩
  cases tr with
  | exn msg => rfl
  | http status statusText body =>
    simp only [createLLMQueryFunction]
    by_cases h : 200 ≤ status ∧ status < 300
    · rw [if_neg (not_not_intro h)]
      cases safeJsonParse body with
      | err e => rfl
      | ok j =>
        dsimp only
        cases parseResponse j with
        | err e => rfl
        | ok v => rfl
    · rw [if_pos h]

/-- Membership in a conditional singleton list. -/
theorem mem_ite_singleton {c : Prop} [Decidable c] {x a : Invocation}
    (h : x ∈ (if c then [a] else [])) : x = a := by
  split at h <;> simp_all

/-- Every invocation `buildLLMPromises` pushes carries the schema it was
given. -/
theorem buildLLMPromises_schema (query : String) (schema : JVal)
    (apiKeys : ResolvedKeys) (inv : Invocation)
    (h : inv ∈ buildLLMPromises query schema apiKeys) : inv.schema = schema := by
  simp only [buildLLMPromises, List.mem_append] at h
  rcases h with ((h | h) | h) | h <;> rw [mem_ite_singleton h]

/-- Every value has positive size. -/
theorem sizeJ_pos (v : JVal) : 1 ≤ sizeJ v := by
  cases v <;> simp [sizeJ]

/-- Every element list has positive size. -/
theorem sizeElems_pos (xs : List JVal) : 1 ≤ sizeElems xs := by
  cases xs with
  | nil => simp [sizeElems]
  | cons x xs =>
    have := sizeJ_pos x
    simp [sizeElems]
    omega

/-- Every member list has positive size. -/
theorem sizeMembers_pos (fs : List (String × JVal)) : 1 ≤ sizeMembers fs := by
  cases fs with
  | nil => simp [sizeMembers]
  | cons kv fs =>
    obtain ⟨k, v⟩ := kv
    have := sizeJ_pos v
    simp [sizeMembers]
    omega

/-- A printed value starts with a non-whitespace character that is not a
closing delimiter or separator. -/
theorem printJ_head (v : JVal) (h : noUndef v = true) :
    ∃ c cs, printJ v = c :: cs ∧ isWsChar c = false ∧
      c ≠ ']' ∧ c ≠ '}' ∧ c ≠ ',' := by
  cases v with
  | undefined => simp [noUndef] at h
  | null =>
    exact ⟨'n', ['u', 'l', 'l'], by simp [printJ], by decide, by decide, by decide, by decide⟩
  | bool b =>
    cases b with
    | true =>
      exact ⟨'t', ['r', 'u', 'e'], by simp [printJ], by decide, by decide, by decide, by decide⟩
    | false =>
      exact ⟨'f', ['a', 'l', 's', 'e'], by simp [printJ], by decide, by decide, by decide,
        by decide⟩
  | num n =>
    by_cases hn : n < 0
    · exact ⟨'-', natDigits n.natAbs, by simp [printJ, printInt, hn], by decide, by decide,
        by decide, by decide⟩
    · obtain ⟨c, ds, hcd⟩ := List.exists_cons_of_ne_nil (natDigits_ne_nil n.natAbs)
      have hc : c.isDigit = true := natDigits_all_digits _ c (by rw [hcd]; simp)
      obtain ⟨hws, hbr, hbc, hcm⟩ := isDigit_facts c hc
      exact ⟨c, ds, by simp [printJ, printInt, hn, hcd], hws, hbr, hbc, hcm⟩
  | str s =>
    exact ⟨'"', escapeChars s.data ++ ['"'], by simp [printJ], by decide, by decide, by decide,
      by decide⟩
  | arr xs =>
    exact ⟨'[', printElems xs ++ [']'], by simp [printJ], by decide, by decide, by decide,
      by decide⟩
  | obj fs =>
    exact ⟨'{', printMembers fs ++ ['}'], by simp [printJ], by decide, by decide, by decide,
      by decide⟩

/-- A printed nonempty element list starts with the first value's head
character. -/
theorem printElems_head (x : JVal) (xs : List JVal) (h : noUndef x = true) :
    ∃ c cs, printElems (x :: xs) = c :: cs ∧ isWsChar c = false ∧ c ≠ ']' := by
  obtain ⟨c, cs, hpc, hws, hbr, -, -⟩ := printJ_head x h
  cases xs with
  | nil => exact ⟨c, cs, by simp [printElems, hpc], hws, hbr⟩
  | cons y ys =>
    exact ⟨c, cs ++ ',' :: printElems (y :: ys), by simp [printElems, hpc], hws, hbr⟩

/-- The parser inverts the printer: with enough fuel, parsing a printed
value (followed by any suffix that does not start with a digit) returns
exactly that value and the suffix.  Stated simultaneously for values,
nonempty element lists and nonempty member lists, by induction on
fuel. -/
theorem parse_print_roundtrip (fuel : Nat) :
    (∀ v rest, noUndef v = true → sizeJ v ≤ fuel → delimOk rest →
      parseVal fuel (printJ v ++ rest) = .ok (v, rest)) ∧
    (∀ x xs rest, noUndef x = true → noUndefElems xs = true →
      sizeElems (x :: xs) ≤ fuel →
      parseElems fuel (printElems (x :: xs) ++ ']' :: rest) = .ok (x :: xs, rest)) ∧
    (∀ k v fs rest, noUndef v = true → noUndefMembers fs = true →
      sizeMembers ((k, v) :: fs) ≤ fuel →
      parseMembers fuel (printMembers ((k, v) :: fs) ++ '}' :: rest)
        = .ok ((k, v) :: fs, rest)) := by
  induction fuel with
  | zero =>
    refine ⟨fun v rest _ hsz _ => ?_, fun x xs rest _ _ hsz => ?_,
      fun k v fs rest _ _ hsz => ?_⟩
    · have := sizeJ_pos v
      omega
    · have := sizeJ_pos x
      have := sizeElems_pos xs
      simp [sizeElems] at hsz
      omega
    · have := sizeJ_pos v
      have := sizeMembers_pos fs
      simp [sizeMembers] at hsz
      omega
  | succ fuel ih =>
    obtain ⟨ihA, ihB, ihC⟩ := ih
    refine ⟨fun v rest hnu hsz hrest => ?_, fun x xs rest hnux hnuxs hsz => ?_,
      fun k v fs rest hnuv hnufs hsz => ?_⟩
    · -- values
      cases v with
      | undefined => simp [noUndef] at hnu
      | null =>
        simp only [printJ, List.cons_append, List.nil_append]
        rw [parseVal.eq_def]
        dsimp only
        rw [skipWs_not_ws _ _ (by decide)]
        dsimp only
        rw [if_neg (by decide), if_neg (by decide), if_neg (by decide), if_neg (by decide),
          if_neg (by decide), if_pos rfl]
        simp [expectChars]
      | bool b =>
        cases b with
        | true =>
          simp only [printJ, List.cons_append, List.nil_append]
          rw [parseVal.eq_def]
          dsimp only
          rw [skipWs_not_ws _ _ (by decide)]
          dsimp only
          rw [if_neg (by decide), if_neg (by decide), if_neg (by decide), if_neg (by decide),
            if_neg (by decide), if_neg (by decide), if_pos rfl]
          simp [expectChars]
        | false =>
          simp only [printJ, List.cons_append, List.nil_append]
          rw [parseVal.eq_def]
          dsimp only
          rw [skipWs_not_ws _ _ (by decide)]
          dsimp only
          rw [if_neg (by decide), if_neg (by decide), if_neg (by decide), if_neg (by decide),
            if_neg (by decide), if_neg (by decide), if_neg (by decide), if_pos rfl]
          simp [expectChars]
      | num n =>
        simp only [printJ]
        by_cases hn : n < 0
        · rw [printInt, if_pos hn]
          obtain ⟨c, ds, hcd⟩ := List.exists_cons_of_ne_nil (natDigits_ne_nil n.natAbs)
          simp only [List.cons_append]
          rw [parseVal.eq_def]
          dsimp only
          rw [skipWs_not_ws _ _ (by decide)]
          dsimp only
          rw [if_neg (by decide), if_pos rfl]
          rw [parseDigits_append _ _ (natDigits_all_digits _) hrest]
          rw [hcd]
          dsimp only
          rw [← hcd, digitsToNat_natDigits]
          have habs : -((n.natAbs : Int)) = n := by omega
          rw [habs]
        · rw [printInt, if_neg hn]
          obtain ⟨c, ds, hcd⟩ := List.exists_cons_of_ne_nil (natDigits_ne_nil n.natAbs)
          have hc : c.isDigit = true := natDigits_all_digits _ c (by rw [hcd]; simp)
          rw [hcd]
          simp only [List.cons_append]
          rw [parseVal.eq_def]
          dsimp only
          rw [skipWs_not_ws _ _ (isDigit_facts c hc).1]
          dsimp only
          rw [if_pos hc]
          rw [show c :: (ds ++ rest) = (c :: ds) ++ rest from rfl]
          rw [← hcd, parseDigits_append _ _ (natDigits_all_digits _) hrest]
          dsimp only
          rw [digitsToNat_natDigits]
          have habs : ((n.natAbs : Int)) = n := by omega
          rw [habs]
      | str s =>
        obtain ⟨data⟩ := s
        simp only [printJ, List.cons_append, List.append_assoc, List.singleton_append]
        rw [parseVal.eq_def]
        dsimp only
        rw [skipWs_not_ws _ _ (by decide)]
        dsimp only
        rw [if_neg (by decide), if_neg (by decide), if_pos rfl]
        rw [parseStrChars_escape]
        simp
      | arr xs =>
        cases xs with
        | nil =>
          simp only [printJ, printElems, List.nil_append, List.cons_append]
          rw [parseVal.eq_def]
          dsimp only
          rw [skipWs_not_ws _ _ (by decide)]
          dsimp only
          rw [if_neg (by decide), if_neg (by decide), if_neg (by decide), if_pos rfl]
          rw [skipWs_not_ws _ _ (by decide)]
          dsimp only
          rw [if_pos rfl]
        | cons x xs' =>
          have hnux : noUndef x = true := by
            simp [noUndef, noUndefElems] at hnu
            exact hnu.1
          have hnuxs : noUndefElems xs' = true := by
            simp [noUndef, noUndefElems] at hnu
            exact hnu.2
          simp only [printJ, List.cons_append, List.append_assoc, List.singleton_append]
          rw [parseVal.eq_def]
          dsimp only
          rw [skipWs_not_ws _ _ (by decide)]
          dsimp only
          rw [if_neg (by decide), if_neg (by decide), if_neg (by decide), if_pos rfl]
          obtain ⟨c, cs, hpc, hws, hbr⟩ := printElems_head x xs' hnux
          rw [hpc, List.cons_append]
          rw [skipWs_not_ws _ _ hws]
          dsimp only
          rw [if_neg hbr]
          rw [← List.cons_append, ← hpc]
          simp only [List.nil_append]
          rw [ihB x xs' rest hnux hnuxs (by simp [sizeJ] at hsz; omega)]
      | obj fs =>
        cases fs with
        | nil =>
          simp only [printJ, printMembers, List.nil_append, List.cons_append]
          rw [parseVal.eq_def]
          dsimp only
          rw [skipWs_not_ws _ _ (by decide)]
          dsimp only
          rw [if_neg (by decide), if_neg (by decide), if_neg (by decide), if_neg (by decide),
            if_pos rfl]
          rw [skipWs_not_ws _ _ (by decide)]
          dsimp only
          rw [if_pos rfl]
        | cons kv fs' =>
          obtain ⟨k, v⟩ := kv
          have hnuv : noUndef v = true := by
            simp [noUndef, noUndefMembers] at hnu
            exact hnu.1
          have hnufs : noUndefMembers fs' = true := by
            simp [noUndef, noUndefMembers] at hnu
            exact hnu.2
          simp only [printJ, List.cons_append, List.append_assoc, List.singleton_append]
          rw [parseVal.eq_def]
          dsimp only
          rw [skipWs_not_ws _ _ (by decide)]
          dsimp only
          rw [if_neg (by decide), if_neg (by decide), if_neg (by decide), if_neg (by decide),
            if_pos rfl]
          cases fs' with
          | nil =>
            simp only [printMembers, List.cons_append, List.append_assoc,
              List.singleton_append, List.nil_append]
            rw [skipWs_not_ws _ _ (by decide)]
            dsimp only
            rw [if_neg (by decide)]
            have hm := ihC k v [] rest hnuv hnufs (by simp [sizeJ] at hsz; omega)
            simp only [printMembers, List.cons_append, List.append_assoc,
              List.singleton_append, List.nil_append] at hm
            rw [hm]
          | cons kv2 fs2 =>
            simp only [printMembers, List.cons_append, List.append_assoc,
              List.singleton_append, List.nil_append]
            rw [skipWs_not_ws _ _ (by decide)]
            dsimp only
            rw [if_neg (by decide)]
            have hm := ihC k v (kv2 :: fs2) rest hnuv hnufs
              (by simp [sizeJ] at hsz; omega)
            simp only [printMembers, List.cons_append, List.append_assoc,
              List.singleton_append, List.nil_append] at hm
            rw [hm]
    · -- element lists
      have hdelBr : delimOk (']' :: rest) := by
        show (']').isDigit = false
        decide
      cases xs with
      | nil =>
        simp only [printElems]
        rw [parseElems.eq_def]
        dsimp only
        have hszx : sizeJ x ≤ fuel := by
          have := sizeElems_pos ([] : List JVal)
          simp [sizeElems] at hsz
          omega
        rw [ihA x (']' :: rest) hnux hszx hdelBr]
        dsimp only
        rw [skipWs_not_ws _ _ (by decide)]
        dsimp only
        rw [if_neg (by decide), if_pos rfl]
      | cons y ys =>
        have hnuy : noUndef y = true := by
          simp [noUndefElems] at hnuxs
          exact hnuxs.1
        have hnuys : noUndefElems ys = true := by
          simp [noUndefElems] at hnuxs
          exact hnuxs.2
        have hszx : sizeJ x ≤ fuel := by
          have h1 := sizeJ_pos y
          have h2 := sizeElems_pos ys
          simp [sizeElems] at hsz
          omega
        have hszy : sizeElems (y :: ys) ≤ fuel := by
          have h1 := sizeJ_pos x
          simp [sizeElems] at hsz ⊢
          omega
        simp only [printElems, List.cons_append, List.append_assoc]
        rw [parseElems.eq_def]
        dsimp only
        rw [ihA x _ hnux hszx (by show (',').isDigit = false; decide)]
        dsimp only
        rw [skipWs_not_ws _ _ (by decide)]
        dsimp only
        rw [if_pos rfl]
        rw [ihB y ys rest hnuy hnuys hszy]
    · -- member lists
      obtain ⟨kd⟩ := k
      have hdelBc : delimOk ('}' :: rest) := by
        show ('}').isDigit = false
        decide
      cases fs with
      | nil =>
        simp only [printMembers, List.cons_append, List.append_assoc,
          List.singleton_append, List.nil_append]
        rw [parseMembers.eq_def]
        dsimp only
        rw [skipWs_not_ws _ _ (by decide)]
        dsimp only
        rw [if_pos rfl]
        rw [parseStrChars_escape]
        dsimp only
        rw [skipWs_not_ws _ _ (by decide)]
        dsimp only
        rw [if_pos rfl]
        have hszv : sizeJ v ≤ fuel := by
          simp [sizeMembers] at hsz
          omega
        rw [ihA v ('}' :: rest) hnuv hszv hdelBc]
        dsimp only
        rw [skipWs_not_ws _ _ (by decide)]
        dsimp only
        rw [if_neg (by decide), if_pos rfl]
      | cons kv2 fs2 =>
        obtain ⟨k2, v2⟩ := kv2
        have hnuv2 : noUndef v2 = true := by
          simp [noUndefMembers] at hnufs
          exact hnufs.1
        have hnufs2 : noUndefMembers fs2 = true := by
          simp [noUndefMembers] at hnufs
          exact hnufs.2
        have hszv : sizeJ v ≤ fuel := by
          have h1 := sizeJ_pos v2
          have h2 := sizeMembers_pos fs2
          simp [sizeMembers] at hsz
          omega
        have hszr : sizeMembers ((k2, v2) :: fs2) ≤ fuel := by
          have h1 := sizeJ_pos v
          simp [sizeMembers] at hsz ⊢
          omega
        simp only [printMembers, List.cons_append, List.append_assoc,
          List.singleton_append, List.nil_append]
        rw [parseMembers.eq_def]
        dsimp only
        rw [skipWs_not_ws _ _ (by decide)]
        dsimp only
        rw [if_pos rfl]
        rw [parseStrChars_escape]
        dsimp only
        rw [skipWs_not_ws _ _ (by decide)]
        dsimp only
        rw [if_pos rfl]
        rw [ihA v _ hnuv hszv (by show (',').isDigit = false; decide)]
        dsimp only
        rw [skipWs_not_ws _ _ (by decide)]
        dsimp only
        rw [if_pos rfl]
        rw [ihC k2 v2 fs2 rest hnuv2 hnufs2 hszr]

/-- The size measure of a printed value is bounded by the printed length,
so `jsonParse`'s fuel of length-plus-one always suffices.  Stated with an
explicit bound to drive the nested induction. -/
theorem size_le_print_all (n : Nat) :
    (∀ v, sizeJ v ≤ n → noUndef v = true → sizeJ v ≤ (printJ v).length) ∧
    (∀ xs, sizeElems xs ≤ n → noUndefElems xs = true →
      sizeElems xs ≤ (printElems xs).length + 1) ∧
    (∀ fs, sizeMembers fs ≤ n → noUndefMembers fs = true →
      sizeMembers fs ≤ (printMembers fs).length + 1) := by
  induction n with
  | zero =>
    refine ⟨fun v hsz _ => ?_, fun xs hsz _ => ?_, fun fs hsz _ => ?_⟩
    · have := sizeJ_pos v
      omega
    · have := sizeElems_pos xs
      omega
    · have := sizeMembers_pos fs
      omega
  | succ n ih =>
    obtain ⟨ihA, ihB, ihC⟩ := ih
    refine ⟨fun v hsz hnu => ?_, fun xs hsz hnu => ?_, fun fs hsz hnu => ?_⟩
    · cases v with
      | undefined => simp [noUndef] at hnu
      | null => simp [sizeJ, printJ]
      | bool b => cases b <;> simp [sizeJ, printJ]
      | num m =>
        have hne := natDigits_ne_nil m.natAbs
        have hlen : 1 ≤ (natDigits m.natAbs).length := by
          cases hnd : natDigits m.natAbs with
          | nil => exact absurd hnd hne
          | cons c cs => simp
        simp only [sizeJ, printJ, printInt]
        split
        · simp
        · exact hlen
      | str s => simp [sizeJ, printJ]
      | arr xs =>
        have hxs : noUndefElems xs = true := by simpa [noUndef] using hnu
        have hszxs : sizeElems xs ≤ n := by simp [sizeJ] at hsz; omega
        have := ihB xs hszxs hxs
        simp only [sizeJ, printJ, List.length_cons, List.length_append]
        simp
        omega
      | obj fs =>
        have hfs : noUndefMembers fs = true := by simpa [noUndef] using hnu
        have hszfs : sizeMembers fs ≤ n := by simp [sizeJ] at hsz; omega
        have := ihC fs hszfs hfs
        simp only [sizeJ, printJ, List.length_cons, List.length_append]
        simp
        omega
    · cases xs with
      | nil => simp [sizeElems]
      | cons x xs' =>
        have hnux : noUndef x = true := by
          simp [noUndefElems] at hnu
          exact hnu.1
        have hnuxs : noUndefElems xs' = true := by
          simp [noUndefElems] at hnu
          exact hnu.2
        have hszx : sizeJ x ≤ n := by
          have := sizeElems_pos xs'
          simp [sizeElems] at hsz
          omega
        have h1 := ihA x hszx hnux
        cases xs' with
        | nil =>
          simp only [sizeElems, printElems]
          omega
        | cons y ys =>
          have hszr : sizeElems (y :: ys) ≤ n := by
            have := sizeJ_pos x
            simp [sizeElems] at hsz ⊢
            omega
          have h2 := ihB (y :: ys) hszr hnuxs
          simp only [sizeElems, printElems, List.length_append, List.length_cons] at *
          omega
    · cases fs with
      | nil => simp [sizeMembers]
      | cons kv fs' =>
        obtain ⟨k, v⟩ := kv
        have hnuv : noUndef v = true := by
          simp [noUndefMembers] at hnu
          exact hnu.1
        have hnufs : noUndefMembers fs' = true := by
          simp [noUndefMembers] at hnu
          exact hnu.2
        have hszv : sizeJ v ≤ n := by
          have := sizeMembers_pos fs'
          simp [sizeMembers] at hsz
          omega
        have h1 := ihA v hszv hnuv
        cases fs' with
        | nil =>
          simp only [sizeMembers, printMembers, List.length_cons, List.length_append]
          omega
        | cons kv2 fs2 =>
          have hszr : sizeMembers (kv2 :: fs2) ≤ n := by
            have := sizeJ_pos v
            simp [sizeMembers] at hsz ⊢
            omega
          have h2 := ihC (kv2 :: fs2) hszr hnufs
          simp only [sizeMembers, printMembers, List.length_append, List.length_cons] at *
          omega

/-! ## Claims -/

/-- C1: the dispatcher builds exactly one invocation per provider with a
truthy resolved credential, in fixed registration order (openai,
anthropic, gemini, grok); running them through the all-complete join
yields exactly that many outcomes in the same order, whatever each
individual outcome is; and with zero credentialed providers it returns
the distinguished no-providers error instead of an empty outcome list,
invoking nothing. -/
theorem dispatcher_order_and_count (query : String) (schema : JVal)
    (apiKeys : ResolvedKeys) (oracle : Provider → CallEnv) :
    buildLLMPromises query schema apiKeys
      = (registrationOrder.filter (fun p => truthy (apiKeys.get p))).map
          (fun p => ⟨p, query, schema, apiKeys.get p⟩) ∧
    ((buildLLMPromises query schema apiKeys).map (runInvocation oracle)).length
      = (registrationOrder.filter (fun p => truthy (apiKeys.get p))).length ∧
    dispatchProviders query schema apiKeys oracle
      = (if (registrationOrder.filter (fun p => truthy (apiKeys.get p))).length = 0
         then .err "No API keys provided. Include apiKeys in request body or configure environment variables."
         else .ok ((buildLLMPromises query schema apiKeys).map (runInvocation oracle))) := by
  rcases apiKeys with ⟨ko, ka, kg, kr⟩
  cases ho : truthy ko <;> cases ha : truthy ka <;> cases hg : truthy kg <;>
    cases hr : truthy kr <;>
    simp [buildLLMPromises, dispatchProviders, registrationOrder, ResolvedKeys.get,
      ho, ha, hg, hr, List.filter]

/-- C2: for every adapter, query, schema, credential and transport result
the invoker returns an outcome carrying the provider identity and the
recorded latency, with `data` present exactly on success and `error`
present exactly on failure. -/
theorem invoker_total_and_tagged (provider : String)
    (parseResponse : JVal → Result JVal String)
    (query : String) (schema apiKey : JVal) (call : CallEnv) :
    (createLLMQueryFunction provider parseResponse query schema apiKey call).provider
      = provider ∧
    (createLLMQueryFunction provider parseResponse query schema apiKey call).latency
      = call.endTime - call.startTime ∧
    (createLLMQueryFunction provider parseResponse query schema apiKey call).data.isSome
      = (createLLMQueryFunction provider parseResponse query schema apiKey call).success ∧
    (createLLMQueryFunction provider parseResponse query schema apiKey call).error.isSome
      = !(createLLMQueryFunction provider parseResponse query schema apiKey call).success := by
  rcases call with ⟨st, en, tr⟩
  cases tr with
  | exn msg => exact ⟨rfl, rfl, rfl, rfl⟩
  | http status statusText body =>
    simp only [createLLMQueryFunction]
    by_cases h : 200 ≤ status ∧ status < 300
    · rw [if_neg (not_not_intro h)]
      cases safeJsonParse body with
      | err e => exact ⟨rfl, rfl, rfl, rfl⟩
      | ok j =>
        dsimp only
        cases parseResponse j with
        | err e => exact ⟨rfl, rfl, rfl, rfl⟩
        | ok v => exact ⟨rfl, rfl, rfl, rfl⟩
    · rw [if_pos h]
      exact ⟨rfl, rfl, rfl, rfl⟩

/-- C3: each provider's resolved credential is the caller-supplied value
when truthy and the process default otherwise (falsy caller values fall
through), and it depends only on that provider's caller entry and
default. -/
theorem keyresolver_pointwise (requestData : JVal) (env : Env)
    (requestData' : JVal) (env' : Env) (p : Provider)
    (hc : callerKey requestData p = callerKey requestData' p)
    (he : envKey env p = envKey env' p) :
    (resolveApiKeys requestData env).get p
      = (if truthy (callerKey requestData p) = true
         then callerKey requestData p else envKey env p) ∧
    (resolveApiKeys requestData env).get p = (resolveApiKeys requestData' env').get p := by
  cases p <;>
    refine ⟨?_, ?_⟩ <;>
    simp only [resolveApiKeys, ResolvedKeys.get, jsOr, hc, he]

/-- Witness for C3: for openai, a caller-supplied key wins over the
default, and changing only the other providers' entries changes
nothing. -/
theorem keyresolver_pointwise_witness :
    (callerKey (.obj [("apiKeys", .obj [("openai", .str "caller-key")])]) .openai
      = callerKey (.obj [("apiKeys", .obj [("openai", .str "caller-key"),
          ("grok", .str "other")])]) .openai) ∧
    (envKey ⟨some "default-key", none, none, none⟩ .openai
      = envKey ⟨some "default-key", some "x", some "y", some "z"⟩ .openai) ∧
    ((resolveApiKeys (.obj [("apiKeys", .obj [("openai", .str "caller-key")])])
        ⟨some "default-key", none, none, none⟩).get .openai
      = (if truthy (callerKey (.obj [("apiKeys", .obj [("openai", .str "caller-key")])]) .openai) = true
         then callerKey (.obj [("apiKeys", .obj [("openai", .str "caller-key")])]) .openai
         else envKey ⟨some "default-key", none, none, none⟩ .openai) ∧
     (resolveApiKeys (.obj [("apiKeys", .obj [("openai", .str "caller-key")])])
        ⟨some "default-key", none, none, none⟩).get .openai
      = (resolveApiKeys (.obj [("apiKeys", .obj [("openai", .str "caller-key"),
          ("grok", .str "other")])])
          ⟨some "default-key", some "x", some "y", some "z"⟩).get .openai) :=
  ⟨rfl, rfl, keyresolver_pointwise _ _ _ _ .openai rfl rfl⟩

/-- C4: validation succeeds iff the payload is a truthy value of JS type
object whose `query` field is a string of positive trimmed length, and
the only possible success value is the payload itself, unchanged. -/
theorem validator_accepts_iff (d : JVal) :
    (validateRequest d = .ok d ↔
      (truthy d = true ∧ d.typeof = "object" ∧
        ∃ s, d.get "query" = .str s ∧ 0 < (jsTrim s).length)) ∧
    (validateRequest d = .ok d ∨ ∃ e, validateRequest d = .err e) := by
  by_cases h1 : truthy d = false ∨ d.typeof ≠ "object"
  case pos =>
    rw [validateRequest, if_pos h1]
    refine ⟨⟨fun h => Result.noConfusion h, fun hr => ?_⟩, .inr ⟨_, rfl⟩⟩
    rcases hr with ⟨ht, hty, -⟩
    rcases h1 with h1 | h1
    · rw [ht] at h1
      exact absurd h1 (by decide)
    · exact (h1 hty).elim
  case neg =>
    push_neg at h1
    obtain ⟨ht, hty⟩ := h1
    by_cases h2 : truthy (d.get "query") = false ∨ (d.get "query").typeof ≠ "string"
    case pos =>
      rw [validateRequest, if_neg (by push_neg; exact ⟨ht, hty⟩), if_pos h2]
      refine ⟨⟨fun h => Result.noConfusion h, fun hr => ?_⟩, .inr ⟨_, rfl⟩⟩
      rcases hr with ⟨-, -, s, hs, hlen⟩
      rcases h2 with h2 | h2
      · rw [hs] at h2
        have hse : s = "" := by simpa [truthy] using h2
        subst hse
        exact absurd hlen (by decide)
      · rw [hs] at h2
        exact (h2 rfl).elim
    case neg =>
      push_neg at h2
      obtain ⟨ht2, hty2⟩ := h2
      obtain ⟨s, hs⟩ : ∃ s, d.get "query" = .str s := by
        cases hq : d.get "query" <;> rw [hq] at hty2 <;> simp [JVal.typeof] at hty2
        exact ⟨_, rfl⟩
      have hne : s ≠ "" := by
        rw [hs] at ht2
        simpa [truthy] using ht2
      rw [validateRequest, if_neg (by push_neg; exact ⟨ht, hty⟩),
        if_neg (by push_neg; exact ⟨ht2, hty2⟩), hs]
      simp only [JVal.asString]
      by_cases h3 : (jsTrim s).length = 0
      · rw [if_pos h3]
        refine ⟨⟨fun h => Result.noConfusion h, fun hr => ?_⟩, .inr ⟨_, rfl⟩⟩
        rcases hr with ⟨-, -, s', hs', hlen⟩
        injection hs' with he
        subst he
        omega
      · rw [if_neg h3]
        exact ⟨⟨fun _ => ⟨by simpa using ht, hty, s, rfl, by omega⟩, fun _ => rfl⟩,
          .inl rfl⟩

/-- C6: aggregation is total, counts exactly the outcomes it was given
independently of their success flags, and passes every outcome through
unchanged. -/
theorem aggregator_counts_outcomes (query : String) (responses : List LLMResponse)
    (totalLatency : Int) (now : String) :
    (createCombinedResponse query responses totalLatency now).providersQueried
      = responses.length ∧
    (createCombinedResponse query responses totalLatency now).responses = responses ∧
    (createCombinedResponse query responses totalLatency now).query = query ∧
    (createCombinedResponse query responses totalLatency now).totalLatency
      = totalLatency := by
  exact ⟨rfl, rfl, rfl, rfl⟩

/-- Counterexample to C7 as stated: for the payload whose `query` field
is the empty string, the validator reports the missing-field error, not
the empty-query error — the falsy check at index.ts line 418 fires before
the trim check at line 422 ever runs. -/
theorem validator_empty_string_counterexample :
    validateRequest (.obj [("query", .str "")]) = .err "Missing required field: query" ∧
    validateRequest (.obj [("query", .str "")]) ≠ .err "Query cannot be empty" := by
  refine ⟨rfl, fun h => ?_⟩
  have h2 : Result.err (T := JVal) "Missing required field: query"
      = Result.err (T := JVal) "Query cannot be empty" := h
  injection h2 with h3
  exact absurd h3 (by decide)

/-- C7 (amended): for every payload that is a truthy JS object, the
missing-field error is reported exactly when the `query` field is not a
truthy string (absent, not a string, or the empty string — in particular
the empty string yields the missing-field error), and the empty-query
error exactly when `query` is a nonempty string whose trimmed length is
zero. -/
theorem validator_error_classes (d : JVal)
    (hobj : truthy d = true ∧ d.typeof = "object") :
    (validateRequest d = .err "Missing required field: query" ↔
      ¬ ∃ s, d.get "query" = .str s ∧ s ≠ "") ∧
    (validateRequest d = .err "Query cannot be empty" ↔
      ∃ s, d.get "query" = .str s ∧ s ≠ "" ∧ (jsTrim s).length = 0) := by
  have hcond1 : ¬(truthy d = false ∨ d.typeof ≠ "object") := by
    push_neg
    exact ⟨by simp [hobj.1], hobj.2⟩
  by_cases h2 : truthy (d.get "query") = false ∨ (d.get "query").typeof ≠ "string"
  case pos =>
    rw [validateRequest, if_neg hcond1, if_pos h2]
    refine ⟨⟨fun _ => ?_, fun _ => rfl⟩, ⟨fun h => ?_, fun hr => ?_⟩⟩
    · rintro ⟨s, hs, hne⟩
      rcases h2 with h2 | h2
      · rw [hs] at h2
        simp [truthy, hne] at h2
      · rw [hs] at h2
        exact h2 rfl
    · injection h with h3
      exact absurd h3 (by decide)
    · rcases hr with ⟨s, hs, hne, -⟩
      rcases h2 with h2 | h2
      · rw [hs] at h2
        simp [truthy, hne] at h2
      · rw [hs] at h2
        exact (h2 rfl).elim
  case neg =>
    push_neg at h2
    obtain ⟨ht2, hty2⟩ := h2
    obtain ⟨s, hs⟩ : ∃ s, d.get "query" = .str s := by
      cases hq : d.get "query" <;> rw [hq] at hty2 <;> simp [JVal.typeof] at hty2
      exact ⟨_, rfl⟩
    have hne : s ≠ "" := by
      rw [hs] at ht2
      simpa [truthy] using ht2
    rw [validateRequest, if_neg hcond1,
      if_neg (by push_neg; exact ⟨ht2, hty2⟩), hs]
    simp only [JVal.asString]
    by_cases h3 : (jsTrim s).length = 0
    · rw [if_pos h3]
      refine ⟨⟨fun h => ?_, fun hcon => absurd ⟨s, rfl, hne⟩ hcon⟩,
        ⟨fun _ => ⟨s, rfl, hne, h3⟩, fun _ => rfl⟩⟩
      injection h with h4
      exact absurd h4 (by decide)
    · rw [if_neg h3]
      refine ⟨⟨fun h => Result.noConfusion h, fun hcon => absurd ⟨s, rfl, hne⟩ hcon⟩,
        ⟨fun h => Result.noConfusion h, fun hr => ?_⟩⟩
      rcases hr with ⟨s', hs', -, hlen⟩
      injection hs' with he
      subst he
      exact (h3 hlen).elim

/-- Witness for C7's amended theorem: a whitespace-only query on a plain
object yields the empty-query classification. -/
theorem validator_error_classes_witness :
    (truthy (JVal.obj [("query", .str "  ")]) = true ∧
      (JVal.obj [("query", .str "  ")]).typeof = "object") ∧
    ((validateRequest (.obj [("query", .str "  ")]) = .err "Missing required field: query" ↔
      ¬ ∃ s, (JVal.obj [("query", .str "  ")]).get "query" = .str s ∧ s ≠ "") ∧
     (validateRequest (.obj [("query", .str "  ")]) = .err "Query cannot be empty" ↔
      ∃ s, (JVal.obj [("query", .str "  ")]).get "query" = .str s ∧ s ≠ "" ∧
        (jsTrim s).length = 0)) :=
  ⟨⟨rfl, rfl⟩, validator_error_classes _ ⟨rfl, rfl⟩⟩

/-- Counterexample to C8 as stated: with the second clock reading earlier
than the first (wall-clock skew), the recorded latency is negative — the
source computes `Date.now() - startTime` with no clamping. -/
theorem invoker_latency_counterexample :
    (createLLMQueryFunction "OpenAI GPT-4" parseOpenAIResponse "What is 2+2?"
      DEFAULT_SCHEMA (JVal.str "sk-test") ⟨5, 0, .exn "connection error"⟩).latency < 0 := by
  decide

/-- C8 (amended): on every branch the outcome's latency is exactly the
difference of the two clock readings taken around the call, and is
therefore non-negative whenever the second reading is not earlier than
the first; the code itself never clamps. -/
theorem invoker_latency_nonneg (provider : String)
    (parseResponse : JVal → Result JVal String)
    (query : String) (schema apiKey : JVal) (call : CallEnv)
    (hclock : call.startTime ≤ call.endTime) :
    (createLLMQueryFunction provider parseResponse query schema apiKey call).latency
      = call.endTime - call.startTime ∧
    0 ≤ (createLLMQueryFunction provider parseResponse query schema apiKey call).latency := by
  have h := createLLMQueryFunction_latency provider parseResponse query schema apiKey call
  exact ⟨h, by rw [h]; omega⟩

/-- Witness for C8's amended theorem at a concrete successful-clock
call. -/
theorem invoker_latency_nonneg_witness :
    ((⟨100, 250, .http 200 "OK" "bad json"⟩ : CallEnv).startTime
      ≤ (⟨100, 250, .http 200 "OK" "bad json"⟩ : CallEnv).endTime) ∧
    ((createLLMQueryFunction "xAI Grok" parseGrokResponse "q" DEFAULT_SCHEMA
        (JVal.str "k") ⟨100, 250, .http 200 "OK" "bad json"⟩).latency
      = (250 : Int) - 100 ∧
     0 ≤ (createLLMQueryFunction "xAI Grok" parseGrokResponse "q" DEFAULT_SCHEMA
        (JVal.str "k") ⟨100, 250, .http 200 "OK" "bad json"⟩).latency) :=
  ⟨by decide, invoker_latency_nonneg "xAI Grok" parseGrokResponse "q" DEFAULT_SCHEMA
    (JVal.str "k") ⟨100, 250, .http 200 "OK" "bad json"⟩ (by decide)⟩

/-- C10: when the validated request's `schema` field is falsy (absent,
null, empty string, zero or false), every invocation the handler plans is
built with `DEFAULT_SCHEMA`; when it is truthy it is passed through as
supplied. -/
theorem schema_defaulting (d : JVal) (env : Env) :
    (truthy (d.get "schema") = false →
      ∀ inv ∈ plannedInvocations d env, inv.schema = DEFAULT_SCHEMA) ∧
    (truthy (d.get "schema") = true →
      ∀ inv ∈ plannedInvocations d env, inv.schema = d.get "schema") := by
  constructor <;> intro h inv hm <;>
  · rw [plannedInvocations] at hm
    have hsc := buildLLMPromises_schema _ _ _ _ hm
    rwa [jsOr, h] at hsc

/-- Witness for C10: a request without a `schema` field plans its one
openai invocation with the default schema. -/
theorem schema_defaulting_witness :
    truthy ((JVal.obj [("query", .str "hi"),
        ("apiKeys", .obj [("openai", .str "k")])]).get "schema") = false ∧
    (∀ inv ∈ plannedInvocations
        (.obj [("query", .str "hi"), ("apiKeys", .obj [("openai", .str "k")])])
        ⟨none, none, none, none⟩, inv.schema = DEFAULT_SCHEMA) :=
  ⟨rfl, (schema_defaulting _ _).1 rfl⟩

/-- C5: for every input text (empty, whitespace-only, non-JSON, or
arbitrarily large), the safe-parse wrapper returns a tagged value: either
a success carrying the parsed value, or a failure whose message embeds
the underlying parser's message after the wrapper's prefix.  Totality is
structural: `safeJsonParse` is a function on all of `String`. -/
theorem safeparse_total_and_tagged (text : String) :
    (∃ v, safeJsonParse text = .ok v) ∨
    (∃ msg, safeJsonParse text = .err ("JSON parse error: " ++ msg)) := by
  unfold safeJsonParse
  cases jsonParse text with
  | ok v => exact .inl ⟨v, rfl⟩
  | error m => exact .inr ⟨m, rfl⟩

/-- C9: encoding a structured value (one with no `undefined` inside) to
text and safe-parsing it back returns exactly the original value.  The
negative-zero normalization is vacuous here because numbers are modelled
as integers. -/
theorem json_roundtrip (v : JVal) (h : noUndef v = true) :
    safeJsonParse (stringify v) = .ok v := by
  have hsz : sizeJ v ≤ (printJ v).length :=
    (size_le_print_all (sizeJ v)).1 v le_rfl h
  have hrt := (parse_print_roundtrip ((printJ v).length + 1)).1 v [] h (by omega) trivial
  rw [List.append_nil] at hrt
  unfold safeJsonParse jsonParse
  simp only [stringify]
  rw [hrt]
  simp [skipWs]

/-- Witness for C9 at a concrete nested value. -/
theorem json_roundtrip_witness :
    noUndef (JVal.obj [("answer", .str "Paris"), ("confidence", .num 1),
      ("tags", .arr [.null, .bool true, .num (-3)])]) = true ∧
    safeJsonParse (stringify (JVal.obj [("answer", .str "Paris"), ("confidence", .num 1),
      ("tags", .arr [.null, .bool true, .num (-3)])]))
      = .ok (JVal.obj [("answer", .str "Paris"), ("confidence", .num 1),
        ("tags", .arr [.null, .bool true, .num (-3)])]) :=
  ⟨by simp [noUndef, noUndefElems, noUndefMembers],
   json_roundtrip _ (by simp [noUndef, noUndefElems, noUndefMembers])⟩

end LlmMeta
